import Mathlib

/-!
Verification of the auto-analyze priority scheduler and of the
statistics-handle session utilities (`pkg/statistics/handle/util/util.go`).

The session utilities (`CallWithSCtx`, `WrapTxn`, `finishTransaction`,
`IsSpecialGlobalIndex`) are embedded from the Go source.  The scheduler core
(time window, job, priority queue, refresher loop) is declared by the build
file but its source files (`interval.go`, `job.go`, `queue.go`) are not part
of this tree, so those components are modelled from the design document.
-/

namespace Sched

/-- Modelled from the spec: the maintenance `TimeWindow` of `interval.go`
(absent from the tree).  `start`/`stop` are times of day in minutes since
midnight (`stop` models the field called `end`, a reserved word in Lean). -/
structure TimeWindow where
  start : Nat
  stop : Nat
deriving DecidableEq, Repr

/-- Modelled from the spec: `TimeWindow.Contains(now)`.
If `start == end` the window is always open; if `start < end` it is open on
`[start, end)`; if `start > end` it wraps past midnight and is open on
`[start, 24h) ∪ [0, end)`. -/
def twContains (w : TimeWindow) (now : Nat) : Bool :=
  if w.start = w.stop then true
  else if w.start < w.stop then decide (w.start ≤ now) && decide (now < w.stop)
  else decide (now ≥ w.start) || decide (now < w.stop)

/-- Modelled from the spec: one entry of the priority queue of `queue.go`
(absent from the tree): a job key, its priority score, and the insertion
sequence number used to break score ties in favour of earlier insertion. -/
structure Entry where
  key : Nat
  score : Int
  seq : Nat
deriving DecidableEq, Repr

/-- Modelled from the spec: the keyed max-priority queue of `queue.go`
(absent from the tree).  `entries` holds the live entries (keys unique);
`nextSeq` is the insertion counter. -/
structure Queue where
  entries : List Entry
  nextSeq : Nat
deriving DecidableEq, Repr

/-- The empty queue. -/
def emptyQ : Queue := { entries := [], nextSeq := 0 }

/-- `beats a b` holds when entry `a` is returned before entry `b`:
strictly higher score, or equal score and earlier insertion. -/
def beats (a b : Entry) : Bool :=
  decide (b.score < a.score) || (decide (a.score = b.score) && decide (a.seq < b.seq))

/-- Select the entry with maximal score, ties to the earliest inserted. -/
def selectMax : List Entry → Option Entry
  | [] => none
  | e :: es =>
    match selectMax es with
    | none => some e
    | some m => if beats m e then some m else some e

/-- Modelled from the spec: `PopMax`.  Removes and returns the
highest-score entry (insertion-order tie-break); on an empty queue returns
no entry and leaves the queue unchanged. -/
def popMax (q : Queue) : Option Entry × Queue :=
  match selectMax q.entries with
  | none => (none, q)
  | some m => (some m, { q with entries := q.entries.erase m })

/-- Modelled from the spec: `Push(job)`.  If the key is already present the
existing entry keeps its insertion number and its score is replaced;
otherwise a new entry is appended with the next insertion number. -/
def push (q : Queue) (k : Nat) (s : Int) : Queue :=
  if q.entries.any (fun e => e.key = k) then
    { q with entries :=
        q.entries.map (fun e => if e.key = k then { e with score := s } else e) }
  else
    { entries := q.entries ++ [{ key := k, score := s, seq := q.nextSeq }],
      nextSeq := q.nextSeq + 1 }

/-- Modelled from the spec: `Remove(key)`; a no-op returning `false` when
the key is absent. -/
def removeQ (q : Queue) (k : Nat) : Bool × Queue :=
  if q.entries.any (fun e => e.key = k) then
    (true, { q with entries := q.entries.filter (fun e => ¬ e.key = k) })
  else
    (false, q)

/-- A queue operation, for stating properties of arbitrary histories. -/
inductive Op where
  | push (k : Nat) (s : Int)
  | popMax
  | remove (k : Nat)
deriving DecidableEq, Repr

/-- Apply one operation to a queue. -/
def applyOp (q : Queue) : Op → Queue
  | Op.push k s => push q k s
  | Op.popMax => (popMax q).2
  | Op.remove k => (removeQ q k).2

/-- Run a history of operations from the empty queue. -/
def runOps (ops : List Op) : Queue := ops.foldl applyOp emptyQ

/-- The internal well-formedness of a queue: keys are pairwise distinct,
insertion numbers are pairwise distinct and below the counter. -/
def QInv (q : Queue) : Prop :=
  q.entries.Pairwise (fun a b => a.key ≠ b.key ∧ a.seq ≠ b.seq) ∧
  ∀ e ∈ q.entries, e.seq < q.nextSeq

/-- `m` is an optimal pick from a list: every member has a strictly smaller
score, or an equal score and a not-earlier insertion number. -/
def optimalFor (m : Entry) (es : List Entry) : Prop :=
  ∀ e ∈ es, e.score < m.score ∨ (e.score = m.score ∧ m.seq ≤ e.seq)

/-- Modelled from the spec: the lifecycle status of a Job (`job.go`, absent
from the tree). -/
inductive JStatus where
  | pending
  | queued
  | running
  | succeeded
  | failed
  | quarantined
deriving DecidableEq, Repr

/-- Modelled from the spec: the scheduling state of a Job (`job.go`, absent
from the tree): lifecycle status, retry count, quarantine cool-down expiry,
time of the last successful refresh, and priority score.  Times are absolute
minutes. -/
structure JobState where
  status : JStatus
  retryCount : Nat
  quarantineUntil : Nat
  lastRefresh : Nat
  score : Int
deriving DecidableEq, Repr

/-- Modelled from the spec: `Job.IsEligible(now, window, minReanalyzeInterval)`
(`job.go`, absent from the tree): false outside the time window, false when
the time since the last refresh is below the minimum re-analyze interval,
false while the job is quarantined and the cool-down has not expired, true
otherwise.  The time of day of the absolute time `now` is `now % 1440`. -/
def isEligible (j : JobState) (now : Nat) (w : TimeWindow)
    (minReanalyzeInterval : Nat) : Bool :=
  if ¬ twContains w (now % 1440) then false
  else if now - j.lastRefresh < minReanalyzeInterval then false
  else if j.status = JStatus.quarantined ∧ now < j.quarantineUntil then false
  else true

/-- Modelled from the spec: completion handling of a failed execution
(`job.go`/refresher, absent from the tree): the retry count is incremented;
while below `maxRetries` the job goes back to `Pending` for the next refresh
pass, and on reaching `maxRetries` it becomes `Quarantined` with cool-down
expiry `now + quarantineDuration`. -/
def onFailure (maxRetries quarantineDuration now : Nat) (j : JobState) : JobState :=
  let rc := j.retryCount + 1
  if rc < maxRetries then
    { j with status := JStatus.pending, retryCount := rc }
  else
    { j with status := JStatus.quarantined, retryCount := rc,
             quarantineUntil := now + quarantineDuration }

/-- Iterate `k` failed executions of a job. -/
def failTimes (maxRetries quarantineDuration now : Nat) (j : JobState) : Nat → JobState
  | 0 => j
  | Nat.succ k =>
    onFailure maxRetries quarantineDuration now
      (failTimes maxRetries quarantineDuration now j k)

/-- A fresh job: pending, no retries yet, never quarantined. -/
def freshJob (lastRefresh : Nat) (score : Int) : JobState :=
  { status := JStatus.pending, retryCount := 0, quarantineUntil := 0,
    lastRefresh := lastRefresh, score := score }

/-- Modelled from the spec: the staleness signals of a Job (`job.go`, absent
from the tree): the change ratio (modified over total rows), the elapsed
time since the last refresh, and the table row count. -/
structure Signals where
  changeRate : Rat
  elapsed : Rat
  rowCount : Nat
deriving DecidableEq, Repr

/-- Modelled from the spec: the `WeightConfig` coefficients of the priority
function. -/
structure WeightConfig where
  wChange : Rat
  wStaleness : Rat
  wSize : Rat
deriving DecidableEq, Repr

/-- Modelled from the spec: the size term of the priority score, a
logarithmic function of the row count. -/
def sizeTerm (rowCount : Nat) : Rat := ((Nat.log 2 (rowCount + 1) : Nat) : Rat)

/-- Modelled from the spec: `ComputePriorityScore(signals, weights)`
(`job.go`, absent from the tree): a weighted sum of the change ratio, the
elapsed time since the last refresh, and the logarithmic size term. -/
def computePriorityScore (s : Signals) (w : WeightConfig) : Rat :=
  w.wChange * s.changeRate + w.wStaleness * s.elapsed + w.wSize * sizeTerm s.rowCount

/-- Modelled from the spec: the observable dispatch state of the Refresher
(absent from the tree): the queue, the number of currently running
executions, and the peak number of simultaneously running executions
observed so far. -/
structure RState where
  queue : Queue
  running : Nat
  peak : Nat
deriving Repr

/-- The initial refresher state. -/
def initR : RState := { queue := emptyQ, running := 0, peak := 0 }

/-- Modelled from the spec: the dispatch loop of one tick (refresher, absent
from the tree).  While the window is open, the running count is strictly
below the concurrency limit and the queue is non-empty: pop the maximum
entry; when it is eligible dispatch it (the running count and the observed
peak grow), otherwise discard it for this cycle.  `fuel` bounds the
iteration; every pop shrinks the queue, so fuel `queue.entries.length`
realizes the full loop. -/
def dispatchFuel (limit : Nat) (elig : Entry → Bool) : Nat → RState → RState
  | 0, st => st
  | Nat.succ fuel, st =>
    if st.running < limit then
      match popMax st.queue with
      | (none, _) => st
      | (some e, q2) =>
        if elig e then
          dispatchFuel limit elig fuel
            { queue := q2, running := st.running + 1,
              peak := max st.peak (st.running + 1) }
        else
          dispatchFuel limit elig fuel { st with queue := q2 }
    else st

/-- One refresher event: a tick (push the cycle's candidate jobs, then run
the dispatch loop when the window is open), or the completion of one running
execution. -/
inductive REvent where
  | tick (cands : List (Nat × Int)) (windowOpen : Bool)
  | complete

/-- Modelled from the spec: one step of the refresher control loop (absent
from the tree). -/
def stepR (limit : Nat) (elig : Entry → Bool) (st : RState) : REvent → RState
  | REvent.tick cands windowOpen =>
    let q := cands.foldl (fun q2 c => push q2 c.1 c.2) st.queue
    let st2 := { st with queue := q }
    if windowOpen then dispatchFuel limit elig q.entries.length st2 else st2
  | REvent.complete => { st with running := st.running - 1 }

/-- Run the refresher from the initial state over a sequence of events. -/
def runR (limit : Nat) (elig : Entry → Bool) (evs : List REvent) : RState :=
  evs.foldl (stepR limit elig) initR

end Sched

namespace StatsUtil

/-- An error value; `none` stands for the Go `nil` error. -/
abbrev Err := Option Nat

/-- The flag constant `FlagWrapTxn` of `util.go`. -/
def FlagWrapTxn : Nat := 0

/-- The outcomes of the external calls made by `CallWithSCtx` and `WrapTxn`:
the pool `Get`, `UpdateSCtxVarsForStats`, the wrapped function `f`, and the
`BEGIN PESSIMISTIC` / `COMMIT` / `rollback` statements. -/
structure CallEnv where
  getErr : Err
  updateVarsErr : Err
  fErr : Err
  beginErr : Err
  commitErr : Err
  rollbackErr : Err
deriving DecidableEq, Repr

/-- Events traced by the embedding of `WrapTxn`. -/
inductive TxnEv where
  | beginStmt
  | runF
  | commitStmt
  | rollbackStmt
deriving DecidableEq, Repr

/-- Embeds `finishTransaction` (util.go lines 62-71): when the incoming
error is nil it executes `COMMIT` and the commit's error becomes the result;
otherwise it executes `rollback`, only logs the rollback's error, and
returns the incoming error. -/
def finishTransaction (env : CallEnv) (err : Err) : Err × List TxnEv :=
  match err with
  | none => (env.commitErr, [TxnEv.commitStmt])
  | some e => (some e, [TxnEv.rollbackStmt])

/-- Embeds `WrapTxn` (util.go lines 198-209): executes `BEGIN PESSIMISTIC`,
returning its error without running `f` when it fails; otherwise runs `f`
and the deferred `finishTransaction` settles the transaction on `f`'s
error. -/
def wrapTxn (env : CallEnv) : Err × List TxnEv :=
  match env.beginErr with
  | some e => (some e, [TxnEv.beginStmt])
  | none =>
    let fin := finishTransaction env env.fErr
    (fin.1, [TxnEv.beginStmt, TxnEv.runF] ++ fin.2)

/-- A release action on the pooled session handle. -/
inductive PoolAct where
  | put
  | destroy
deriving DecidableEq, Repr

/-- Embeds `CallWithSCtx` (util.go lines 79-110): gets a handle from the
pool, returning the `Get` error when that fails (no handle to release);
afterwards the deferred release puts the handle back into the pool when the
final error is nil and destroys it otherwise.  The body first updates the
session variables (failing early on error) and then runs `f`, wrapped in a
transaction when some flag equals `FlagWrapTxn`. -/
def callWithSCtx (env : CallEnv) (flags : List Nat) : Err × List PoolAct :=
  match env.getErr with
  | some e => (some e, [])
  | none =>
    match env.updateVarsErr with
    | some e => (some e, [PoolAct.destroy])
    | none =>
      let wrap := flags.any (fun fl => fl = FlagWrapTxn)
      let err := if wrap then (wrapTxn env).1 else env.fErr
      match err with
      | none => (none, [PoolAct.put])
      | some e => (some e, [PoolAct.destroy])

/-- `types.UnspecifiedLength` of the Go source. -/
def UnspecifiedLength : Int := -1

/-- The fields of `model.IndexColumn` read by `IsSpecialGlobalIndex`. -/
structure IndexColumn where
  offset : Nat
  length : Int
deriving DecidableEq, Repr

/-- The fields of `model.ColumnInfo` read by `IsSpecialGlobalIndex`; the
predicate `IsVirtualGenerated()` is abstracted as a Boolean field. -/
structure ColumnInfo where
  virtualGenerated : Bool
deriving DecidableEq, Repr

/-- The fields of `model.IndexInfo` read by `IsSpecialGlobalIndex`. -/
structure IndexInfo where
  global : Bool
  columns : List IndexColumn
deriving DecidableEq, Repr

/-- The fields of `model.TableInfo` read by `IsSpecialGlobalIndex`. -/
structure TableInfo where
  columns : List ColumnInfo
deriving DecidableEq, Repr

/-- Embeds `IsSpecialGlobalIndex` (util.go lines 275-289): true when the
index is global and one of its columns is a virtual generated column or has
an explicit length (a column whose `Length` is not `UnspecifiedLength`).
The Go slice access `tblInfo.Columns[col.Offset]`, a panic when out of
range, is modelled by a default non-generated column. -/
def IsSpecialGlobalIndex (idx : IndexInfo) (tblInfo : TableInfo) : Bool :=
  if ¬ idx.global then false
  else idx.columns.any (fun col =>
    let colInfo := tblInfo.columns.getD col.offset { virtualGenerated := false }
    let isPrefixCol := ¬ col.length = UnspecifiedLength
    colInfo.virtualGenerated || isPrefixCol)

end StatsUtil

theorem Sched.selectMax_eq_none {es : List Entry} (h : selectMax es = none) : es = [] := by
  cases es with
  | nil => rfl
  | cons e es =>
    simp only [selectMax] at h
    cases hsel : selectMax es <;> rw [hsel] at h <;> simp at h
    split at h <;> simp at h

theorem Sched.selectMax_spec (es : List Entry) :
    ∀ m, selectMax es = some m → m ∈ es ∧ optimalFor m es := by
  induction es with
  | nil => intro m h; simp [selectMax] at h
  | cons e es ih =>
    intro m h
    simp only [selectMax] at h
    cases hsel : selectMax es with
    | none =>
      rw [hsel] at h
      simp only [Option.some.injEq] at h
      subst h
      have hnil := selectMax_eq_none hsel
      subst hnil
      refine ⟨List.mem_cons_self _ _, ?_⟩
      intro x hx
      simp only [List.mem_cons, List.not_mem_nil, or_false] at hx
      subst hx
      exact Or.inr ⟨rfl, le_refl _⟩
    | some best =>
      rw [hsel] at h
      have h : (if beats best e = true then some best else some e) = some m := h
      obtain ⟨hmem, hopt⟩ := ih best hsel
      by_cases hb : beats best e = true
      · rw [if_pos hb] at h
        simp only [Option.some.injEq] at h
        subst h
        refine ⟨List.mem_cons_of_mem _ hmem, ?_⟩
        intro x hx
        rcases List.mem_cons.mp hx with hx | hx
        · subst hx
          simp only [beats, Bool.or_eq_true, Bool.and_eq_true, decide_eq_true_eq] at hb
          rcases hb with hb | ⟨hb1, hb2⟩
          · exact Or.inl hb
          · exact Or.inr ⟨hb1.symm, Nat.le_of_lt hb2⟩
        · exact hopt x hx
      · rw [if_neg hb] at h
        simp only [Option.some.injEq] at h
        subst h
        simp only [beats, Bool.or_eq_true, Bool.and_eq_true, decide_eq_true_eq,
          not_or, not_and, not_lt] at hb
        obtain ⟨hb1, hb2⟩ := hb
        refine ⟨List.mem_cons_self _ _, ?_⟩
        intro x hx
        rcases List.mem_cons.mp hx with hx | hx
        · subst hx
          exact Or.inr ⟨rfl, le_refl _⟩
        · rcases hopt x hx with hxs | ⟨hxs, hxq⟩
          · exact Or.inl (lt_of_lt_of_le hxs hb1)
          · rcases lt_or_eq_of_le hb1 with hlt | heq
            · exact Or.inl (hxs ▸ hlt)
            · exact Or.inr ⟨hxs.trans heq, le_trans (hb2 heq) hxq⟩

theorem Sched.qinv_empty : QInv emptyQ := by
  constructor
  · exact List.Pairwise.nil
  · intro e he; simp [emptyQ] at he

theorem Sched.qinv_push (q : Queue) (k : Nat) (s : Int) (h : QInv q) : QInv (push q k s) := by
  obtain ⟨hpair, hseq⟩ := h
  unfold push
  split
  · constructor
    · refine List.Pairwise.map _ ?_ hpair
      intro a b hab
      constructor
      · show (if a.key = k then { a with score := s } else a).key ≠
            (if b.key = k then { b with score := s } else b).key
        split <;> split <;> exact hab.1
      · show (if a.key = k then { a with score := s } else a).seq ≠
            (if b.key = k then { b with score := s } else b).seq
        split <;> split <;> exact hab.2
    · intro e he
      simp only [List.mem_map] at he
      obtain ⟨x, hx, hxe⟩ := he
      have : e.seq = x.seq := by
        subst hxe; split <;> rfl
      rw [this]
      exact hseq x hx
  · rename_i hab
    constructor
    · rw [List.pairwise_append]
      refine ⟨hpair, List.pairwise_singleton _ _, ?_⟩
      intro a ha b hb
      simp only [List.mem_singleton] at hb
      subst hb
      constructor
      · intro hk
        have : q.entries.any (fun e => e.key = k) = true := by
          simp only [List.any_eq_true, decide_eq_true_eq]
          exact ⟨a, ha, hk⟩
        exact hab this
      · exact Nat.ne_of_lt (hseq a ha)
    · intro e he
      rcases List.mem_append.mp he with he | he
      · exact Nat.lt_succ_of_lt (hseq e he)
      · simp only [List.mem_singleton] at he
        subst he
        exact Nat.lt_succ_self _

theorem Sched.qinv_popMax (q : Queue) (h : QInv q) : QInv (popMax q).2 := by
  obtain ⟨hpair, hseq⟩ := h
  unfold popMax
  cases hsel : selectMax q.entries with
  | none => exact ⟨hpair, hseq⟩
  | some m =>
    constructor
    · exact List.Pairwise.sublist (List.erase_sublist m q.entries) hpair
    · intro e he
      exact hseq e (List.mem_of_mem_erase he)

theorem Sched.qinv_removeQ (q : Queue) (k : Nat) (h : QInv q) : QInv (removeQ q k).2 := by
  obtain ⟨hpair, hseq⟩ := h
  unfold removeQ
  split
  · constructor
    · exact List.Pairwise.sublist (List.filter_sublist _) hpair
    · intro e he
      exact hseq e (List.mem_of_mem_filter he)
  · exact ⟨hpair, hseq⟩

theorem Sched.qinv_applyOp (q : Queue) (op : Op) (h : QInv q) : QInv (applyOp q op) := by
  cases op with
  | push k s => exact qinv_push q k s h
  | popMax => exact qinv_popMax q h
  | remove k => exact qinv_removeQ q k h

theorem Sched.qinv_runOps (ops : List Op) : QInv (runOps ops) := by
  have key : ∀ (l : List Op) (q : Queue), QInv q → QInv (l.foldl applyOp q) := by
    intro l
    induction l with
    | nil => intro q hq; exact hq
    | cons op l ih =>
      intro q hq
      exact ih (applyOp q op) (qinv_applyOp q op hq)
  exact key ops emptyQ qinv_empty

theorem Sched.push_length_present (q : Queue) (k : Nat) (s : Int)
    (h : q.entries.any (fun e => e.key = k) = true) :
    (push q k s).entries.length = q.entries.length := by
  unfold push
  rw [if_pos h]
  simp

theorem Sched.push_length_absent (q : Queue) (k : Nat) (s : Int)
    (h : q.entries.any (fun e => e.key = k) = false) :
    (push q k s).entries.length = q.entries.length + 1 := by
  unfold push
  rw [if_neg (by simp [h])]
  simp

theorem Sched.push_any_key (q : Queue) (k : Nat) (s : Int) :
    (push q k s).entries.any (fun e => e.key = k) = true := by
  unfold push
  by_cases h : q.entries.any (fun e => e.key = k) = true
  · rw [if_pos h]
    simp only [List.any_eq_true, decide_eq_true_eq] at h ⊢
    obtain ⟨x, hx, hk⟩ := h
    refine ⟨{ x with score := s }, ?_, hk⟩
    exact List.mem_map.mpr ⟨x, hx, by rw [if_pos hk]⟩
  · rw [if_neg h]
    simp only [List.any_eq_true, decide_eq_true_eq]
    exact ⟨⟨k, s, q.nextSeq⟩,
      List.mem_append.mpr (Or.inr (List.mem_singleton.mpr rfl)), rfl⟩

theorem Sched.push_score_wins (q : Queue) (k : Nat) (s : Int)
    (h : q.entries.any (fun e => e.key = k) = true) :
    ∃ e ∈ (push q k s).entries, e.key = k ∧ e.score = s := by
  unfold push
  rw [if_pos h]
  simp only [List.any_eq_true, decide_eq_true_eq] at h
  obtain ⟨x, hx, hk⟩ := h
  refine ⟨{ x with score := s }, ?_, hk, rfl⟩
  exact List.mem_map.mpr ⟨x, hx, by rw [if_pos hk]⟩

theorem Sched.foldl_push_same_key (k : Nat) (scores : List Int) :
    ∀ q : Queue, q.entries.any (fun e => e.key = k) = true →
      (scores.foldl (fun q2 s2 => push q2 k s2) q).entries.length = q.entries.length := by
  induction scores with
  | nil => intro q _; rfl
  | cons s2 rest ih =>
    intro q h
    simp only [List.foldl_cons]
    rw [ih (push q k s2) (push_any_key q k s2)]
    exact push_length_present q k s2 h


/-- C1: for every sequence of Push/PopMax/Remove operations on the priority
queue, PopMax removes and returns the entry with the maximum priority score
among the entries currently present, breaking score ties in favour of the
earlier-inserted entry, and returns no entry with no mutation when the
queue is empty. -/
theorem Sched.popMax_spec_of_runOps (ops : List Sched.Op) :
    ((Sched.runOps ops).entries = [] →
      Sched.popMax (Sched.runOps ops) = (none, Sched.runOps ops)) ∧
    (∀ m q2, Sched.popMax (Sched.runOps ops) = (some m, q2) →
      m ∈ (Sched.runOps ops).entries ∧
      q2 = { Sched.runOps ops with
             entries := (Sched.runOps ops).entries.erase m } ∧
      (∀ e ∈ (Sched.runOps ops).entries, e.score ≤ m.score) ∧
      (∀ e ∈ (Sched.runOps ops).entries,
        e.score = m.score → e ≠ m → m.seq < e.seq)) := by
  constructor
  · intro hnil
    unfold Sched.popMax
    rw [hnil]
    rfl
  · intro m q2 hpop
    unfold Sched.popMax at hpop
    cases hsel : Sched.selectMax (Sched.runOps ops).entries with
    | none =>
      rw [hsel] at hpop
      have hpop : ((none : Option Sched.Entry), Sched.runOps ops) = (some m, q2) := hpop
      simp at hpop
    | some best =>
      rw [hsel] at hpop
      have hpop : (some best, { Sched.runOps ops with
          entries := (Sched.runOps ops).entries.erase best }) = (some m, q2) := hpop
      simp only [Prod.mk.injEq, Option.some.injEq] at hpop
      obtain ⟨hm, hq2⟩ := hpop
      subst hm
      subst hq2
      obtain ⟨hmem, hopt⟩ := Sched.selectMax_spec _ _ hsel
      refine ⟨hmem, rfl, ?_, ?_⟩
      · intro e he
        rcases hopt e he with h | ⟨h, _⟩
        · exact le_of_lt h
        · exact le_of_eq h
      · intro e he hes hne
        have hseqle : best.seq ≤ e.seq := by
          rcases hopt e he with h | ⟨_, h⟩
          · exact absurd hes (ne_of_lt h)
          · exact h
        have hinv := Sched.qinv_runOps ops
        have hsym : Symmetric (fun a b : Sched.Entry => a.key ≠ b.key ∧ a.seq ≠ b.seq) :=
          fun a b h => ⟨h.1.symm, h.2.symm⟩
        have hne' : e.seq ≠ best.seq :=
          (List.Pairwise.forall hsym hinv.1 he hmem hne).2
        omega

/-- Witness for C1 at the tie-break example: pushing keys 1 then 2 with equal
score 5, PopMax returns key 1 (inserted earlier, insertion number 0 < 1). -/
theorem Sched.popMax_spec_of_runOps_witness :
    (⟨1, 5, 0⟩ : Sched.Entry) ∈ (Sched.runOps [Sched.Op.push 1 5, Sched.Op.push 2 5]).entries ∧
    (0 : Nat) < 1 := by
  have h := (Sched.popMax_spec_of_runOps [Sched.Op.push 1 5, Sched.Op.push 2 5]).2
    ⟨1, 5, 0⟩ { entries := [⟨2, 5, 1⟩], nextSeq := 2 } (by decide)
  exact ⟨h.1, h.2.2.2 ⟨2, 5, 1⟩ (by decide) (by decide) (by decide)⟩

/-- C3: Push is idempotent by key on every reachable queue.  When the key is
already present the entry's score is replaced by the new push's score and the
length is unchanged; pushing the same key any further number of times never
changes the length; when the key is absent the length grows by exactly one. -/
theorem Sched.push_idempotent_by_key (ops : List Sched.Op) (k : Nat) (s : Int) :
    ((Sched.runOps ops).entries.any (fun e => e.key = k) = true →
      (Sched.push (Sched.runOps ops) k s).entries.length =
        (Sched.runOps ops).entries.length ∧
      ∃ e ∈ (Sched.push (Sched.runOps ops) k s).entries, e.key = k ∧ e.score = s) ∧
    ((Sched.runOps ops).entries.any (fun e => e.key = k) = false →
      (Sched.push (Sched.runOps ops) k s).entries.length =
        (Sched.runOps ops).entries.length + 1) ∧
    (∀ scores : List Int,
      (scores.foldl (fun q2 s2 => Sched.push q2 k s2)
          (Sched.push (Sched.runOps ops) k s)).entries.length =
        (Sched.push (Sched.runOps ops) k s).entries.length) := by
  refine ⟨?_, ?_, ?_⟩
  · intro h
    exact ⟨Sched.push_length_present _ k s h, Sched.push_score_wins _ k s h⟩
  · intro h
    exact Sched.push_length_absent _ k s h
  · intro scores
    exact Sched.foldl_push_same_key k scores _ (Sched.push_any_key _ k s)

/-- Witness for C3: in the queue built by pushing key 7 with score 3, pushing
key 7 again with score 4 keeps the length at 1 and the stored score becomes 4;
pushing the absent key 9 grows the length to 2. -/
theorem Sched.push_idempotent_by_key_witness :
    ((Sched.push (Sched.runOps [Sched.Op.push 7 3]) 7 4).entries.length =
       (Sched.runOps [Sched.Op.push 7 3]).entries.length ∧
     ∃ e ∈ (Sched.push (Sched.runOps [Sched.Op.push 7 3]) 7 4).entries,
       e.key = 7 ∧ e.score = 4) ∧
    (Sched.push (Sched.runOps [Sched.Op.push 7 3]) 9 4).entries.length =
      (Sched.runOps [Sched.Op.push 7 3]).entries.length + 1 :=
  ⟨(Sched.push_idempotent_by_key [Sched.Op.push 7 3] 7 4).1 (by decide),
   (Sched.push_idempotent_by_key [Sched.Op.push 7 3] 9 4).2.1 (by decide)⟩

/-- C2: TimeWindow.Contains is pure and total over all times of day and
satisfies: always true when start = end; `start <= now < end` when
start < end; `now >= start or now < end` when start > end (midnight wrap);
with the concrete examples 22:00-06:00 containing 23:00 but not 07:00,
01:00-05:00 containing 03:00 but not 23:00, and 09:00-09:00 containing
every time. -/
theorem Sched.twContains_spec :
    (∀ (w : Sched.TimeWindow) (now : Nat), w.start = w.stop →
      Sched.twContains w now = true) ∧
    (∀ (w : Sched.TimeWindow) (now : Nat), w.start < w.stop →
      (Sched.twContains w now = true ↔ (w.start ≤ now ∧ now < w.stop))) ∧
    (∀ (w : Sched.TimeWindow) (now : Nat), w.stop < w.start →
      (Sched.twContains w now = true ↔ (w.start ≤ now ∨ now < w.stop))) ∧
    Sched.twContains ⟨1320, 360⟩ 1380 = true ∧
    Sched.twContains ⟨1320, 360⟩ 420 = false ∧
    Sched.twContains ⟨60, 300⟩ 180 = true ∧
    Sched.twContains ⟨60, 300⟩ 1380 = false ∧
    (∀ t : Nat, Sched.twContains ⟨540, 540⟩ t = true) := by
  refine ⟨?_, ?_, ?_, by decide, by decide, by decide, by decide, ?_⟩
  · intro w now h
    simp [Sched.twContains, h]
  · intro w now h
    have hne : w.start ≠ w.stop := ne_of_lt h
    simp [Sched.twContains, hne, h]
  · intro w now h
    have hne : w.start ≠ w.stop := Ne.symm (ne_of_lt h)
    have hnl : ¬ w.start < w.stop := not_lt_of_gt h
    simp [Sched.twContains, hne, hnl]
  · intro t
    simp [Sched.twContains]

/-- Witness for C2 at concrete windows: an empty-range window contains 100,
and the two case characterizations applied at 01:00-05:00 with 03:00 and at
22:00-06:00 with 23:00. -/
theorem Sched.twContains_spec_witness :
    Sched.twContains ⟨300, 300⟩ 100 = true ∧
    (Sched.twContains ⟨60, 300⟩ 180 = true ↔ (60 ≤ 180 ∧ 180 < 300)) ∧
    (Sched.twContains ⟨1320, 360⟩ 1380 = true ↔ (1320 ≤ 1380 ∨ 1380 < 360)) :=
  ⟨Sched.twContains_spec.1 ⟨300, 300⟩ 100 rfl,
   Sched.twContains_spec.2.1 ⟨60, 300⟩ 180 (by decide),
   Sched.twContains_spec.2.2.1 ⟨1320, 360⟩ 1380 (by decide)⟩

/-- C6: IsEligible returns false outside the time window, false when the
time since the last refresh is below the minimum re-analyze interval
(whatever the job's score is, the score never influences eligibility),
false while quarantined before the cool-down expiry, and true in all other
cases. -/
theorem Sched.isEligible_spec (j : Sched.JobState) (now : Nat)
    (w : Sched.TimeWindow) (mi : Nat) :
    Sched.isEligible j now w mi =
      (Sched.twContains w (now % 1440) &&
       ! decide (now - j.lastRefresh < mi) &&
       ! (decide (j.status = Sched.JStatus.quarantined) &&
          decide (now < j.quarantineUntil))) ∧
    ∀ s : Int, Sched.isEligible { j with score := s } now w mi =
      Sched.isEligible j now w mi := by
  constructor
  · unfold Sched.isEligible
    split_ifs with h1 h2 h3 <;> simp_all
    tauto
  · intro s
    rfl

theorem Sched.failTimes_pending (maxRetries qd now lastR : Nat) (sc : Int) :
    ∀ k, k < maxRetries →
      Sched.failTimes maxRetries qd now (Sched.freshJob lastR sc) k =
        { status := Sched.JStatus.pending, retryCount := k, quarantineUntil := 0,
          lastRefresh := lastR, score := sc } := by
  intro k
  induction k with
  | zero => intro _; rfl
  | succ k ih =>
    intro hk
    have hk2 : k < maxRetries := Nat.lt_of_succ_lt hk
    simp only [Sched.failTimes]
    rw [ih hk2]
    simp [Sched.onFailure, hk]

/-- C5: a job whose execution always fails goes back to Pending with its
retry count incremented for each of the first `maxRetries - 1` failures
(so it is retried exactly `maxRetries` times), and on the `maxRetries`-th
failure it becomes Quarantined with cool-down expiry
`now + quarantineDuration`, during which IsEligible excludes it from
dispatch. -/
theorem Sched.retry_quarantine_spec (maxRetries qd now lastR : Nat) (sc : Int) :
    (∀ k, k < maxRetries →
      (Sched.failTimes maxRetries qd now (Sched.freshJob lastR sc) k).status =
        Sched.JStatus.pending ∧
      (Sched.failTimes maxRetries qd now (Sched.freshJob lastR sc) k).retryCount = k) ∧
    (1 ≤ maxRetries →
      (Sched.failTimes maxRetries qd now (Sched.freshJob lastR sc) maxRetries).status =
        Sched.JStatus.quarantined ∧
      (Sched.failTimes maxRetries qd now (Sched.freshJob lastR sc) maxRetries).retryCount =
        maxRetries ∧
      (Sched.failTimes maxRetries qd now
        (Sched.freshJob lastR sc) maxRetries).quarantineUntil = now + qd ∧
      ∀ (t : Nat) (w : Sched.TimeWindow) (mi : Nat), t < now + qd →
        Sched.isEligible (Sched.failTimes maxRetries qd now (Sched.freshJob lastR sc) maxRetries)
          t w mi = false) := by
  constructor
  · intro k hk
    rw [Sched.failTimes_pending maxRetries qd now lastR sc k hk]
    exact ⟨rfl, rfl⟩
  · intro hmr
    obtain ⟨m, hm⟩ : ∃ m, maxRetries = m + 1 :=
      ⟨maxRetries - 1, (Nat.succ_pred_eq_of_pos hmr).symm⟩
    subst hm
    have hstep :
        Sched.failTimes (m + 1) qd now (Sched.freshJob lastR sc) (m + 1) =
          Sched.onFailure (m + 1) qd now
            (Sched.failTimes (m + 1) qd now (Sched.freshJob lastR sc) m) := rfl
    rw [hstep, Sched.failTimes_pending (m + 1) qd now lastR sc m (Nat.lt_succ_self m)]
    have hq :
        Sched.onFailure (m + 1) qd now
          { status := Sched.JStatus.pending, retryCount := m, quarantineUntil := 0,
            lastRefresh := lastR, score := sc } =
          { status := Sched.JStatus.quarantined, retryCount := m + 1,
            quarantineUntil := now + qd, lastRefresh := lastR, score := sc } := by
      simp [Sched.onFailure]
    rw [hq]
    refine ⟨rfl, rfl, rfl, ?_⟩
    intro t w mi ht
    unfold Sched.isEligible
    split_ifs with h1 h2 h3 <;> try rfl
    exact absurd ⟨rfl, ht⟩ h3

/-- Witness for C5 with maxRetries 2, quarantine duration 10, failure time
100: after one failure the job is Pending with retry count 1; after the
second failure it is Quarantined and ineligible at time 105 in an always
open window. -/
theorem Sched.retry_quarantine_spec_witness :
    ((Sched.failTimes 2 10 100 (Sched.freshJob 0 1) 1).status = Sched.JStatus.pending ∧
     (Sched.failTimes 2 10 100 (Sched.freshJob 0 1) 1).retryCount = 1) ∧
    (Sched.failTimes 2 10 100 (Sched.freshJob 0 1) 2).status = Sched.JStatus.quarantined ∧
    Sched.isEligible (Sched.failTimes 2 10 100 (Sched.freshJob 0 1) 2) 105 ⟨0, 0⟩ 0 = false := by
  have h1 := (Sched.retry_quarantine_spec 2 10 100 0 1).1 1 (by decide)
  have h2 := (Sched.retry_quarantine_spec 2 10 100 0 1).2 (by decide)
  exact ⟨h1, h2.1, h2.2.2.2 105 ⟨0, 0⟩ 0 (by decide)⟩

theorem Sched.dispatchFuel_bound (limit : Nat) (elig : Sched.Entry → Bool) :
    ∀ (fuel : Nat) (st : Sched.RState), st.running ≤ limit → st.peak ≤ limit →
      (Sched.dispatchFuel limit elig fuel st).running ≤ limit ∧
      (Sched.dispatchFuel limit elig fuel st).peak ≤ limit := by
  intro fuel
  induction fuel with
  | zero =>
    intro st h1 h2
    exact ⟨h1, h2⟩
  | succ fuel ih =>
    intro st h1 h2
    simp only [Sched.dispatchFuel]
    split_ifs with hr
    · split
      · exact ⟨h1, h2⟩
      · rename_i e q2
        split_ifs with he
        · exact ih _ hr (max_le h2 hr)
        · exact ih _ h1 h2
    · exact ⟨h1, h2⟩

theorem Sched.stepR_bound (limit : Nat) (elig : Sched.Entry → Bool)
    (st : Sched.RState) (ev : Sched.REvent)
    (h1 : st.running ≤ limit) (h2 : st.peak ≤ limit) :
    (Sched.stepR limit elig st ev).running ≤ limit ∧
    (Sched.stepR limit elig st ev).peak ≤ limit := by
  cases ev with
  | tick cands windowOpen =>
    simp only [Sched.stepR]
    split_ifs with hw
    · exact Sched.dispatchFuel_bound limit elig _ _ h1 h2
    · exact ⟨h1, h2⟩
  | complete =>
    exact ⟨le_trans (Nat.sub_le _ _) h1, h2⟩

/-- C4: in every reachable state of the refresher the number of running
executions, and therefore the observed peak of simultaneous executor
invocations, never exceeds the configured concurrency limit: the dispatch
loop only dispatches another job while the running count is strictly below
the limit. -/
theorem Sched.concurrency_bound (limit : Nat) (elig : Sched.Entry → Bool)
    (evs : List Sched.REvent) :
    (Sched.runR limit elig evs).running ≤ limit ∧
    (Sched.runR limit elig evs).peak ≤ limit := by
  have key : ∀ (l : List Sched.REvent) (st : Sched.RState),
      st.running ≤ limit → st.peak ≤ limit →
      (l.foldl (Sched.stepR limit elig) st).running ≤ limit ∧
      (l.foldl (Sched.stepR limit elig) st).peak ≤ limit := by
    intro l
    induction l with
    | nil => intro st h1 h2; exact ⟨h1, h2⟩
    | cons ev l ih =>
      intro st h1 h2
      obtain ⟨h1s, h2s⟩ := Sched.stepR_bound limit elig st ev h1 h2
      exact ih _ h1s h2s
  exact key evs Sched.initR (Nat.zero_le _) (Nat.zero_le _)

/-- C8: with the weights held fixed (and nonnegative, as coefficients of a
weighted sum), ComputePriorityScore is monotonically increasing separately
in the change ratio, in the elapsed time since the last refresh, and in the
size term derived from the row count. -/
theorem Sched.computePriorityScore_monotone (w : Sched.WeightConfig)
    (hc : 0 ≤ w.wChange) (hs : 0 ≤ w.wStaleness) (hz : 0 ≤ w.wSize) :
    (∀ (s : Sched.Signals) (c1 c2 : Rat), c1 ≤ c2 →
      Sched.computePriorityScore { s with changeRate := c1 } w ≤
        Sched.computePriorityScore { s with changeRate := c2 } w) ∧
    (∀ (s : Sched.Signals) (e1 e2 : Rat), e1 ≤ e2 →
      Sched.computePriorityScore { s with elapsed := e1 } w ≤
        Sched.computePriorityScore { s with elapsed := e2 } w) ∧
    (∀ (s : Sched.Signals) (r1 r2 : Nat), r1 ≤ r2 →
      Sched.computePriorityScore { s with rowCount := r1 } w ≤
        Sched.computePriorityScore { s with rowCount := r2 } w) := by
  refine ⟨?_, ?_, ?_⟩
  · intro s c1 c2 h
    unfold Sched.computePriorityScore
    have := mul_le_mul_of_nonneg_left h hc
    simp only []
    linarith
  · intro s e1 e2 h
    unfold Sched.computePriorityScore
    have := mul_le_mul_of_nonneg_left h hs
    simp only []
    linarith
  · intro s r1 r2 h
    unfold Sched.computePriorityScore
    have hlog : Sched.sizeTerm r1 ≤ Sched.sizeTerm r2 := by
      unfold Sched.sizeTerm
      exact_mod_cast Nat.log_mono_right (Nat.succ_le_succ h)
    have := mul_le_mul_of_nonneg_left hlog hz
    simp only []
    linarith

/-- Witness for C8 with unit weights: raising the change ratio from 1 to 2,
the elapsed time from 3 to 5, and the row count from 7 to 100 each raise
the score. -/
theorem Sched.computePriorityScore_monotone_witness :
    (Sched.computePriorityScore { changeRate := 1, elapsed := 3, rowCount := 7 }
        { wChange := 1, wStaleness := 1, wSize := 1 } ≤
      Sched.computePriorityScore { changeRate := 2, elapsed := 3, rowCount := 7 }
        { wChange := 1, wStaleness := 1, wSize := 1 }) ∧
    (Sched.computePriorityScore { changeRate := 2, elapsed := 3, rowCount := 7 }
        { wChange := 1, wStaleness := 1, wSize := 1 } ≤
      Sched.computePriorityScore { changeRate := 2, elapsed := 5, rowCount := 7 }
        { wChange := 1, wStaleness := 1, wSize := 1 }) ∧
    (Sched.computePriorityScore { changeRate := 2, elapsed := 5, rowCount := 7 }
        { wChange := 1, wStaleness := 1, wSize := 1 } ≤
      Sched.computePriorityScore { changeRate := 2, elapsed := 5, rowCount := 100 }
        { wChange := 1, wStaleness := 1, wSize := 1 }) := by
  have hmono := Sched.computePriorityScore_monotone
    { wChange := 1, wStaleness := 1, wSize := 1 } (by norm_num) (by norm_num) (by norm_num)
  exact ⟨hmono.1 { changeRate := 1, elapsed := 3, rowCount := 7 } 1 2 (by norm_num),
    hmono.2.1 { changeRate := 2, elapsed := 3, rowCount := 7 } 3 5 (by norm_num),
    hmono.2.2 { changeRate := 2, elapsed := 5, rowCount := 7 } 7 100 (by norm_num)⟩

/-- C9: WrapTxn first executes BEGIN PESSIMISTIC and returns its error
without running `f` when it fails; otherwise it runs `f`, commits exactly
when `f` returned nil and rolls back exactly when `f` failed, returning
`f`'s error on failure and the commit's error otherwise. -/
theorem StatsUtil.wrapTxn_spec (env : StatsUtil.CallEnv) :
    (∀ e, env.beginErr = some e →
      StatsUtil.wrapTxn env = (some e, [StatsUtil.TxnEv.beginStmt])) ∧
    (env.beginErr = none → env.fErr = none →
      StatsUtil.wrapTxn env =
        (env.commitErr,
         [StatsUtil.TxnEv.beginStmt, StatsUtil.TxnEv.runF, StatsUtil.TxnEv.commitStmt])) ∧
    (∀ e, env.beginErr = none → env.fErr = some e →
      StatsUtil.wrapTxn env =
        (some e,
         [StatsUtil.TxnEv.beginStmt, StatsUtil.TxnEv.runF, StatsUtil.TxnEv.rollbackStmt])) := by
  refine ⟨?_, ?_, ?_⟩
  · intro e hb
    simp [StatsUtil.wrapTxn, hb]
  · intro hb hf
    simp [StatsUtil.wrapTxn, StatsUtil.finishTransaction, hb, hf]
  · intro e hb hf
    simp [StatsUtil.wrapTxn, StatsUtil.finishTransaction, hb, hf]

/-- Witness for C9: with a failing BEGIN the begin error 7 is returned and
`f` never runs; with everything nil the trace is begin, f, commit; with `f`
failing with 9 the trace is begin, f, rollback and 9 is returned. -/
theorem StatsUtil.wrapTxn_spec_witness :
    StatsUtil.wrapTxn
        { getErr := none, updateVarsErr := none, fErr := none,
          beginErr := some 7, commitErr := none, rollbackErr := none } =
      (some 7, [StatsUtil.TxnEv.beginStmt]) ∧
    StatsUtil.wrapTxn
        { getErr := none, updateVarsErr := none, fErr := none,
          beginErr := none, commitErr := none, rollbackErr := none } =
      (none, [StatsUtil.TxnEv.beginStmt, StatsUtil.TxnEv.runF, StatsUtil.TxnEv.commitStmt]) ∧
    StatsUtil.wrapTxn
        { getErr := none, updateVarsErr := none, fErr := some 9,
          beginErr := none, commitErr := none, rollbackErr := none } =
      (some 9, [StatsUtil.TxnEv.beginStmt, StatsUtil.TxnEv.runF, StatsUtil.TxnEv.rollbackStmt]) :=
  ⟨(StatsUtil.wrapTxn_spec
      { getErr := none, updateVarsErr := none, fErr := none,
        beginErr := some 7, commitErr := none, rollbackErr := none }).1 7 rfl,
   (StatsUtil.wrapTxn_spec
      { getErr := none, updateVarsErr := none, fErr := none,
        beginErr := none, commitErr := none, rollbackErr := none }).2.1 rfl rfl,
   (StatsUtil.wrapTxn_spec
      { getErr := none, updateVarsErr := none, fErr := some 9,
        beginErr := none, commitErr := none, rollbackErr := none }).2.2 9 rfl rfl⟩

/-- C7: once the pool Get has succeeded, every exit path of CallWithSCtx
releases the handle exactly once: Put when the overall error is nil and
Destroy when it is non-nil (including session-variable update failures and
failures of the wrapped function); when Get itself fails no handle was
obtained and none is released. -/
theorem StatsUtil.callWithSCtx_release (env : StatsUtil.CallEnv) (flags : List Nat) :
    (env.getErr = none →
      ((StatsUtil.callWithSCtx env flags).1 = none →
        (StatsUtil.callWithSCtx env flags).2 = [StatsUtil.PoolAct.put]) ∧
      ((StatsUtil.callWithSCtx env flags).1 ≠ none →
        (StatsUtil.callWithSCtx env flags).2 = [StatsUtil.PoolAct.destroy])) ∧
    (∀ e, env.getErr = some e →
      (StatsUtil.callWithSCtx env flags).2 = []) := by
  constructor
  · intro hget
    cases hup : env.updateVarsErr with
    | some e =>
      have hc : StatsUtil.callWithSCtx env flags = (some e, [StatsUtil.PoolAct.destroy]) := by
        simp only [StatsUtil.callWithSCtx, hget, hup]
      rw [hc]
      exact ⟨fun hres => absurd hres (by simp), fun _ => rfl⟩
    | none =>
      cases herr : (if flags.any (fun fl => fl = StatsUtil.FlagWrapTxn)
          then (StatsUtil.wrapTxn env).1 else env.fErr) with
      | none =>
        have hc : StatsUtil.callWithSCtx env flags = (none, [StatsUtil.PoolAct.put]) := by
          simp only [StatsUtil.callWithSCtx, hget, hup, herr]
        rw [hc]
        exact ⟨fun _ => rfl, fun hres => absurd rfl hres⟩
      | some e =>
        have hc : StatsUtil.callWithSCtx env flags = (some e, [StatsUtil.PoolAct.destroy]) := by
          simp only [StatsUtil.callWithSCtx, hget, hup, herr]
        rw [hc]
        exact ⟨fun hres => absurd hres (by simp), fun _ => rfl⟩
  · intro e hget
    simp only [StatsUtil.callWithSCtx, hget]

/-- Witness for C7: with every call succeeding the handle is Put back; with
the wrapped function failing with 9 (no transaction flag) the handle is
Destroyed; with a failing Get nothing is released. -/
theorem StatsUtil.callWithSCtx_release_witness :
    (StatsUtil.callWithSCtx
        { getErr := none, updateVarsErr := none, fErr := none,
          beginErr := none, commitErr := none, rollbackErr := none } []).2 =
      [StatsUtil.PoolAct.put] ∧
    (StatsUtil.callWithSCtx
        { getErr := none, updateVarsErr := none, fErr := some 9,
          beginErr := none, commitErr := none, rollbackErr := none } []).2 =
      [StatsUtil.PoolAct.destroy] ∧
    (StatsUtil.callWithSCtx
        { getErr := some 5, updateVarsErr := none, fErr := none,
          beginErr := none, commitErr := none, rollbackErr := none } []).2 = [] :=
  ⟨((StatsUtil.callWithSCtx_release
      { getErr := none, updateVarsErr := none, fErr := none,
        beginErr := none, commitErr := none, rollbackErr := none } []).1 rfl).1 (by decide),
   ((StatsUtil.callWithSCtx_release
      { getErr := none, updateVarsErr := none, fErr := some 9,
        beginErr := none, commitErr := none, rollbackErr := none } []).1 rfl).2 (by decide),
   (StatsUtil.callWithSCtx_release
      { getErr := some 5, updateVarsErr := none, fErr := none,
        beginErr := none, commitErr := none, rollbackErr := none } []).2 5 rfl⟩

/-- C10: IsSpecialGlobalIndex holds exactly when the index is global and at
least one of its columns is a virtual generated column or a prefix column
(one whose length is not UnspecifiedLength); it is false for every
non-global index whatever its columns are. -/
theorem StatsUtil.isSpecialGlobalIndex_iff (idx : StatsUtil.IndexInfo)
    (tblInfo : StatsUtil.TableInfo) :
    StatsUtil.IsSpecialGlobalIndex idx tblInfo = true ↔
      idx.global = true ∧ ∃ c ∈ idx.columns,
        (tblInfo.columns.getD c.offset { virtualGenerated := false }).virtualGenerated = true ∨
        c.length ≠ StatsUtil.UnspecifiedLength := by
  unfold StatsUtil.IsSpecialGlobalIndex
  cases hg : idx.global with
  | false => simp [hg]
  | true => simp [hg, List.any_eq_true]
